import Mathlib

/-!
Shallow embedding of the rebalancing decision engine of `tr4d3r`
(`src/tr4d3r/core/trading.py`): the equilibrium portfolio manager, its
progression function, the linear blending of equilibria, the pickle
round-trip, and the per-symbol decision logic of the two `tick_write`
variants (simulated time and real time).

Python floats are modelled as rationals; a Python function that can raise
is modelled as `Except String`. A manager's side effects on the portfolio
(market orders) are reified as the list of orders placed, and the `Folio`
collaborator is a snapshot of the values the engine reads from it during
one tick.
-/

/-- A Python dict from symbol to ratio, with insertion order kept. -/
abbrev EquilDict := List (String × ℚ)

/-- `sum(d.values())`. -/
def sumValues (d : EquilDict) : ℚ := (d.map Prod.snd).sum

/-- Dict lookup with default 0 (first occurrence of the key). -/
def lookupD : EquilDict → String → ℚ
  | [], _ => 0
  | (k, v) :: rest, s => if k = s then v else lookupD rest s

/-- `defaultdict(float)` update `raw[k] += v`: add to the first entry for
`k`, or append a fresh entry. -/
def addTo : EquilDict → String → ℚ → EquilDict
  | [], k, v => [(k, v)]
  | (k0, v0) :: rest, k, v =>
      if k0 = k then (k0, v0 + v) :: rest else (k0, v0) :: addTo rest k v

/-- `capped_daily_progression(seconds, step, cap)` from trading.py lines
9-13: asserts `0 < step <= 1` and `0 < cap <= 1`, then returns
`min(cap, step * seconds / 86400)`. -/
def capped_daily_progression (seconds step cap : ℚ) : Except String ℚ :=
  if 0 < step ∧ step ≤ 1 then
    if 0 < cap ∧ cap ≤ 1 then
      Except.ok (min cap (step * (seconds / 86400)))
    else Except.error "Expected 0.0 < cap <= 1.0"
  else Except.error "Expected 0.0 < step <= 1.0"

/-- The progression function at its Python default arguments
`step=0.03, cap=0.5`. -/
def default_progression (seconds : ℚ) : Except String ℚ :=
  capped_daily_progression seconds (3/100) (1/2)

/-- The recognized keys of the loose `params` dict: `cash_ratio`,
`progression_func`, `name`; an absent key is `none`. -/
structure Params where
  cash_ratio : Option ℚ
  progression_func : Option (ℚ → Except String ℚ)
  name : Option String

/-- The empty params dict. -/
def Params.empty : Params := ⟨none, none, none⟩

/-- `EquilibriumPortfolioManager` state: the initial equilibrium snapshot,
the running equilibrium, and the params dict. -/
structure EquilibriumPortfolioManager where
  initial_equilibrium : EquilDict
  running_equilibrium : EquilDict
  params : Params

/-- `__init__(equilibrium, params=None)`: both equilibria are copies of the
argument; `params or {}`. -/
def EquilibriumPortfolioManager.init (equilibrium : EquilDict)
    (params : Option Params) : EquilibriumPortfolioManager :=
  ⟨equilibrium, equilibrium, params.getD Params.empty⟩

/-- `self.params.get("cash_ratio", 0.03)`. -/
def EquilibriumPortfolioManager.cash_ratio (m : EquilibriumPortfolioManager) : ℚ :=
  m.params.cash_ratio.getD (3/100)

/-- `self.params.get("progression_func", DEFAULT_PROGRESSION_FUNC)`. -/
def EquilibriumPortfolioManager.progression (m : EquilibriumPortfolioManager) :
    ℚ → Except String ℚ :=
  m.params.progression_func.getD default_progression

/-- The `equilibrium` setter (trading.py lines 44-50): asserts
`sum(equil_dict.values()) <= 1.0 - cash_ratio`, then replaces the running
equilibrium. -/
def EquilibriumPortfolioManager.set_equilibrium (m : EquilibriumPortfolioManager)
    (equil_dict : EquilDict) : Except String EquilibriumPortfolioManager :=
  if sumValues equil_dict ≤ 1 - m.cash_ratio then
    Except.ok { m with running_equilibrium := equil_dict }
  else Except.error "Too much total ratio for items"

/-- The inner loop of `linear_update` over one source dict: for each
`(symbol, ratio)` assert `ratio >= 0`, and when `ratio > 0` add
`ratio * coeff` into the raw combination and `ratio` into the per-source
total. Returns the updated raw combination and the per-source total. -/
def procEntries (coeff : ℚ) : EquilDict → ℚ → EquilDict → Except String (EquilDict × ℚ)
  | raw, tot, [] => Except.ok (raw, tot)
  | raw, tot, (s, r) :: rest =>
      if 0 ≤ r then
        if 0 < r then procEntries coeff (addTo raw s (r * coeff)) (tot + r) rest
        else procEntries coeff raw tot rest
      else Except.error "Expected non-negative ratio, got a negative one"

/-- The outer loop of `linear_update` over `zip(equil_dictl, coefficients)`:
process each source dict, assert its total ratio is at most
`1.0 - cash_ratio`, and accumulate `total_coeff`. -/
def procSources (cash : ℚ) : EquilDict → ℚ → List (EquilDict × ℚ) →
    Except String (EquilDict × ℚ)
  | raw, totC, [] => Except.ok (raw, totC)
  | raw, totC, (d, c) :: rest =>
      match procEntries c raw 0 d with
      | Except.error e => Except.error e
      | Except.ok (raw2, tot) =>
          if tot ≤ 1 - cash then procSources cash raw2 (totC + c) rest
          else Except.error "Too much total ratio for items"

/-- The normalization comprehension
`{k: v / total_coeff for k, v in raw_combination.items()}`: an empty dict
performs no division; a non-empty one with `total_coeff == 0` raises
`ZeroDivisionError` at the first entry. -/
def divideBy (raw : EquilDict) (totC : ℚ) : Except String EquilDict :=
  match raw with
  | [] => Except.ok []
  | _ :: _ =>
      if totC = 0 then Except.error "ZeroDivisionError: float division by zero"
      else Except.ok (raw.map (fun p => (p.1, p.2 / totC)))

/-- `linear_update(equil_dictl, coefficients)` (trading.py lines 52-76):
collect weighted ratios per source (validating each source), normalize by
the total coefficient, and assign through the `equilibrium` setter. -/
def EquilibriumPortfolioManager.linear_update (m : EquilibriumPortfolioManager)
    (equil_dictl : List EquilDict) (coefficients : List ℚ) :
    Except String EquilibriumPortfolioManager := do
  let rt ← procSources m.cash_ratio [] 0 (equil_dictl.zip coefficients)
  let new_equilibrium ← divideBy rt.1 rt.2
  m.set_equilibrium new_equilibrium

/-- The pickled blob: a dict with the two named fields `equilibrium` and
`params`. -/
structure PickleDict where
  equilibrium : EquilDict
  params : Params

/-- `dump_pickle`: serializes the running equilibrium and the params. -/
def EquilibriumPortfolioManager.dump_pickle (m : EquilibriumPortfolioManager) :
    PickleDict :=
  ⟨m.running_equilibrium, m.params⟩

/-- `load_pickle`: rebuilds a manager from the blob via `__init__`. -/
def EquilibriumPortfolioManager.load_pickle (pkl : PickleDict) :
    EquilibriumPortfolioManager :=
  EquilibriumPortfolioManager.init pkl.equilibrium (some pkl.params)

/-- The item-like object `folio[symbol]` with its worths as read during the
tick (existence is the check `item.name == symbol`). -/
structure Item where
  name : String
  worth : ℚ
  bid_worth : ℚ
  ask_worth : ℚ

/-- Snapshot of everything `tick_write` reads from the Portfolio
collaborator during one tick, plus which order submissions would fail. -/
structure Folio where
  worth : ℚ
  tick_gap : ℚ
  getItem : String → Item
  open_order_values : String → ℚ
  buy_fails : String → Bool
  sell_fails : String → Bool

/-- A market order submitted to the portfolio, with its monetary amount. -/
inductive MarketOrder
  | buy (symbol : String) (amount : ℚ)
  | sell (symbol : String) (amount : ℚ)
deriving DecidableEq

/-- One symbol of `PseudoTimeEquilibrium.tick_write` (trading.py lines
128-151): worths without open-order adjustment, buy when
`target_worth > ask_worth` with amount `(target_worth - ask_worth) * step`,
else sell when the item exists and `target_worth < bid_worth` with amount
`(bid_worth - target_worth) * step`, else nothing. -/
def pseudo_symbol_step (m : EquilibriumPortfolioManager) (folio : Folio) (gap : ℚ)
    (symbol : String) (ratio : ℚ) : Except String (List MarketOrder) := do
  let item := folio.getItem symbol
  let item_exists : Bool := item.name == symbol
  let bid_worth : ℚ := if item_exists then item.bid_worth else 0
  let ask_worth : ℚ := if item_exists then item.ask_worth else 0
  let target_worth := ratio * folio.worth
  let step ← m.progression gap
  if step ≤ 1 then
    if target_worth > ask_worth then
      if folio.buy_fails symbol then Except.error "market buy failed"
      else Except.ok [MarketOrder.buy symbol ((target_worth - ask_worth) * step)]
    else if item_exists ∧ target_worth < bid_worth then
      if folio.sell_fails symbol then Except.error "market sell failed"
      else Except.ok [MarketOrder.sell symbol ((bid_worth - target_worth) * step)]
    else Except.ok []
  else Except.error "Step size too large"

/-- The per-symbol loop of the simulated-time `tick_write`: errors are not
contained, so the first failing symbol aborts the call. -/
def pseudo_process (m : EquilibriumPortfolioManager) (folio : Folio) (gap : ℚ) :
    EquilDict → Except String (List MarketOrder)
  | [] => Except.ok []
  | (s, r) :: rest => do
      let os1 ← pseudo_symbol_step m folio gap s r
      let os2 ← pseudo_process m folio gap rest
      Except.ok (os1 ++ os2)

/-- `PseudoTimeEquilibrium.tick_write(folio, time)` (trading.py lines
123-151): ticks the folio, processes every symbol of the running
equilibrium, and falls off the end of the function body, so its Python
return value is `None` (modelled by the `Option ℚ` component). -/
def PseudoTimeEquilibrium.tick_write (m : EquilibriumPortfolioManager)
    (folio : Folio) : Except String (List MarketOrder × Option ℚ) := do
  let orders ← pseudo_process m folio folio.tick_gap m.running_equilibrium
  Except.ok (orders, none)

/-- The order-submission tail of the real-time subroutine: with
`execute=True` the order is submitted (and may fail); otherwise only a
fake message is logged and no order is placed. -/
def execOrder (folio : Folio) (execute isBuy : Bool) (symbol : String)
    (amount : ℚ) : Except String (List MarketOrder) :=
  if execute then
    if isBuy then
      if folio.buy_fails symbol then Except.error "market buy failed"
      else Except.ok [MarketOrder.buy symbol amount]
    else
      if folio.sell_fails symbol then Except.error "market sell failed"
      else Except.ok [MarketOrder.sell symbol amount]
  else Except.ok []

/-- The body of `RealTimeEquilibrium.tick_write.subroutine` (trading.py
lines 186-233): worths adjusted by the symbol's open-order value, buy when
`target_worth > ask_worth` with amount `(target_worth - cur_worth) * step`,
sell when the item exists and `target_worth < bid_worth` with amount
`(cur_worth - target_worth) * step`; in the remaining branch `action`,
`amount` and `func` are never assigned, so building the order message
raises `UnboundLocalError` before the `execute` flag is consulted; earlier,
the logging ratio `cur_ratio = cur_worth / folio_worth` raises
`ZeroDivisionError` when the portfolio worth is zero. -/
def real_subroutine (m : EquilibriumPortfolioManager) (folio : Folio)
    (gap folio_worth : ℚ) (execute : Bool) (symbol : String) (ratio : ℚ) :
    Except String (List MarketOrder) := do
  let item := folio.getItem symbol
  let item_exists : Bool := item.name == symbol
  let ava_worth : ℚ := if item_exists then item.worth else 0
  let ord_worth := folio.open_order_values symbol
  let cur_worth := ava_worth + ord_worth
  let bid_worth : ℚ := (if item_exists then item.bid_worth else 0) + ord_worth
  let ask_worth : ℚ := (if item_exists then item.ask_worth else 0) + ord_worth
  if folio_worth = 0 then
    Except.error "ZeroDivisionError: float division by zero" else
  let target_worth := ratio * folio_worth
  let step ← m.progression gap
  if step ≤ 1 then
    if target_worth > ask_worth then
      execOrder folio execute true symbol ((target_worth - cur_worth) * step)
    else if item_exists ∧ target_worth < bid_worth then
      execOrder folio execute false symbol ((cur_worth - target_worth) * step)
    else
      Except.error "UnboundLocalError: local variable action referenced before assignment"
  else Except.error "Step size too large"

/-- `wrappy.guard(fallback_retval=0, print_traceback=True)` around the
subroutine: any exception is caught and logged, and the symbol contributes
no order. -/
def guarded_subroutine (m : EquilibriumPortfolioManager) (folio : Folio)
    (gap folio_worth : ℚ) (execute : Bool) (symbol : String) (ratio : ℚ) :
    List MarketOrder :=
  match real_subroutine m folio gap folio_worth execute symbol ratio with
  | Except.ok orders => orders
  | Except.error _ => []

/-- The per-symbol loop of the real-time `tick_write`, over the guarded
subroutine. -/
def real_process (m : EquilibriumPortfolioManager) (folio : Folio)
    (gap folio_worth : ℚ) (execute : Bool) : EquilDict → List MarketOrder
  | [] => []
  | (s, r) :: rest =>
      guarded_subroutine m folio gap folio_worth execute s r ++
        real_process m folio gap folio_worth execute rest

/-- `RealTimeEquilibrium.tick_write(folio, execute=False)` (trading.py
lines 176-238): ticks the folio, runs the guarded subroutine on every
symbol of the running equilibrium, and returns `gap_seconds`. -/
def RealTimeEquilibrium.tick_write (m : EquilibriumPortfolioManager)
    (folio : Folio) (execute : Bool) : List MarketOrder × ℚ :=
  (real_process m folio folio.tick_gap folio.worth execute m.running_equilibrium,
    folio.tick_gap)

/-- The sum of the strictly positive ratios of a source dict (the
`_total_ratio` accumulated by `linear_update` for that source). -/
def posSum : EquilDict → ℚ
  | [] => 0
  | (_, v) :: rest => (if 0 < v then v else 0) + posSum rest

/-- The strictly positive ratio mass a source dict carries for one symbol. -/
def posContrib : EquilDict → String → ℚ
  | [], _ => 0
  | (k, v) :: rest, s => (if k = s ∧ 0 < v then v else 0) + posContrib rest s

/-- Spec-side blended numerator for one symbol:
`Σ_i coeff_i * (positive ratio of the symbol in source i)`. -/
def blendNum : List (EquilDict × ℚ) → String → ℚ
  | [], _ => 0
  | (d, c) :: rest, s => c * posContrib d s + blendNum rest s

/-- `Σ_i coeff_i * posSum d_i`: the total weighted ratio mass collected. -/
def blendWorth : List (EquilDict × ℚ) → ℚ
  | [] => 0
  | (d, c) :: rest => c * posSum d + blendWorth rest

/-- Whether an `Except` computation finished without raising. -/
def exceptOk {ε α : Type} : Except ε α → Bool
  | Except.ok _ => true
  | Except.error _ => false

/-- The running equilibrium of the manager an `Except` computation
produced (junk `[]` on an error). -/
def runEquilOf : Except String EquilibriumPortfolioManager → EquilDict
  | Except.ok m => m.running_equilibrium
  | Except.error _ => []

/-- A concrete manager for witnesses: initial equilibrium 10% on symbol A,
no params. -/
def mgr0 : EquilibriumPortfolioManager :=
  EquilibriumPortfolioManager.init [("A", 1/10)] none

/-- A concrete folio snapshot for witnesses: worth 1000, one day since the
last tick, every item priced 50 with bid 49 and ask 51, no open orders, no
failing submissions. -/
def folioW : Folio :=
  { worth := 1000, tick_gap := 86400
    getItem := fun s => ⟨s, 50, 49, 51⟩
    open_order_values := fun _ => 0
    buy_fails := fun _ => false
    sell_fails := fun _ => false }

/-- A folio in which submitting an order for symbol B fails (a broker or
network error), while everything else matches `folioW`. -/
def folioB : Folio :=
  { worth := 1000, tick_gap := 86400
    getItem := fun s => ⟨s, 50, 49, 51⟩
    open_order_values := fun _ => 0
    buy_fails := fun s => s == "B"
    sell_fails := fun s => s == "B" }

theorem addTo_ne_nil (l : EquilDict) (k : String) (v : ℚ) : addTo l k v ≠ [] := by
  cases l with
  | nil => simp [addTo]
  | cons h t =>
      obtain ⟨k0, v0⟩ := h
      simp only [addTo]
      split <;> simp

theorem lookupD_addTo (l : EquilDict) (k : String) (v : ℚ) (s : String) :
    lookupD (addTo l k v) s = lookupD l s + if k = s then v else 0 := by
  induction l with
  | nil =>
      simp only [addTo, lookupD]
      split <;> simp
  | cons h t ih =>
      obtain ⟨k0, v0⟩ := h
      simp only [addTo]
      by_cases hk0k : k0 = k
      · subst hk0k
        simp only [if_pos rfl, lookupD]
        by_cases hk0s : k0 = s
        · simp [hk0s]
        · simp [hk0s]
      · simp only [if_neg hk0k, lookupD]
        by_cases hk0s : k0 = s
        · have : ¬ k = s := fun h2 => hk0k (by rw [hk0s, h2])
          simp [hk0s, this]
        · simp [hk0s, ih]

theorem sumValues_addTo (l : EquilDict) (k : String) (v : ℚ) :
    sumValues (addTo l k v) = sumValues l + v := by
  induction l with
  | nil => simp [addTo, sumValues]
  | cons h t ih =>
      obtain ⟨k0, v0⟩ := h
      simp only [addTo]
      by_cases hk0k : k0 = k
      · simp [hk0k, sumValues]
        ring
      · simp only [if_neg hk0k, sumValues, List.map_cons, List.sum_cons] at ih ⊢
        rw [ih]
        ring

theorem procEntries_ok (c : ℚ) (d : EquilDict) (hd : ∀ p ∈ d, 0 ≤ p.2) :
    ∀ (raw : EquilDict) (tot : ℚ),
    ∃ raw2, procEntries c raw tot d = Except.ok (raw2, tot + posSum d) ∧
      (∀ s, lookupD raw2 s = lookupD raw s + c * posContrib d s) ∧
      sumValues raw2 = sumValues raw + c * posSum d ∧
      (raw ≠ [] → raw2 ≠ []) ∧
      ((∃ p ∈ d, 0 < p.2) → raw2 ≠ []) := by
  induction d with
  | nil =>
      intro raw tot
      refine ⟨raw, ?_, ?_, ?_, fun h => h, ?_⟩
      · simp [procEntries, posSum]
      · intro s
        simp [posContrib]
      · simp [posSum]
      · rintro ⟨p, hp, _⟩
        exact absurd hp (List.not_mem_nil p)
  | cons hd0 t ih =>
      obtain ⟨s0, r⟩ := hd0
      intro raw tot
      have hr : 0 ≤ r := hd (s0, r) (List.mem_cons_self _ _)
      have ht : ∀ p ∈ t, 0 ≤ p.2 := fun p hp => hd p (List.mem_cons_of_mem _ hp)
      by_cases hpos : 0 < r
      · obtain ⟨raw2, heq, hlook, hsum, hne, hne2⟩ :=
          ih ht (addTo raw s0 (r * c)) (tot + r)
        refine ⟨raw2, ?_, ?_, ?_, ?_, ?_⟩
        · simp only [procEntries, if_pos hr, if_pos hpos, heq, posSum, if_pos hpos]
          congr 2
          ring
        · intro s
          rw [hlook s, lookupD_addTo]
          simp only [posContrib]
          by_cases hs : s0 = s
          · simp [hs, hpos]
            ring
          · simp [hs]
        · rw [hsum, sumValues_addTo]
          simp only [posSum, if_pos hpos]
          ring
        · intro _
          exact hne (addTo_ne_nil _ _ _)
        · intro _
          exact hne (addTo_ne_nil _ _ _)
      · have hr0 : r = 0 := le_antisymm (not_lt.mp hpos) hr
        obtain ⟨raw2, heq, hlook, hsum, hne, hne2⟩ := ih ht raw tot
        refine ⟨raw2, ?_, ?_, ?_, hne, ?_⟩
        · simp [procEntries, if_pos hr, hpos, heq, posSum]
        · intro s
          rw [hlook s]
          simp [posContrib, hpos]
        · rw [hsum]
          simp [posSum, hpos]
        · rintro ⟨p, hp, hppos⟩
          rcases List.mem_cons.mp hp with h1 | h1
          · rw [h1] at hppos
            exact absurd hppos (by simp [hr0])
          · exact hne2 ⟨p, h1, hppos⟩

theorem posSum_nonneg (d : EquilDict) : 0 ≤ posSum d := by
  induction d with
  | nil => simp [posSum]
  | cons h t ih =>
      obtain ⟨k, v⟩ := h
      simp only [posSum]
      have : (0:ℚ) ≤ if 0 < v then v else 0 := by
        split
        · linarith
        · exact le_refl 0
      linarith

theorem posSum_eq_sumValues (d : EquilDict) (hd : ∀ p ∈ d, 0 ≤ p.2) :
    posSum d = sumValues d := by
  induction d with
  | nil => simp [posSum, sumValues]
  | cons h t ih =>
      obtain ⟨k, v⟩ := h
      have hv : 0 ≤ v := hd (k, v) (List.mem_cons_self _ _)
      have ht : ∀ p ∈ t, 0 ≤ p.2 := fun p hp => hd p (List.mem_cons_of_mem _ hp)
      simp only [posSum, sumValues, List.map_cons, List.sum_cons] at ih ⊢
      rw [ih ht]
      rcases lt_or_eq_of_le hv with h1 | h1
      · rw [if_pos h1]
      · rw [if_neg (by rw [← h1] at *; exact lt_irrefl 0), ← h1]

theorem procSources_ok (cash : ℚ) (pairs : List (EquilDict × ℚ))
    (hsrc : ∀ pr ∈ pairs, (∀ p ∈ pr.1, 0 ≤ p.2) ∧ posSum pr.1 ≤ 1 - cash) :
    ∀ (raw : EquilDict) (totC : ℚ),
    ∃ raw2, procSources cash raw totC pairs =
        Except.ok (raw2, totC + (pairs.map Prod.snd).sum) ∧
      (∀ s, lookupD raw2 s = lookupD raw s + blendNum pairs s) ∧
      sumValues raw2 = sumValues raw + blendWorth pairs ∧
      (raw ≠ [] → raw2 ≠ []) ∧
      ((∃ pr ∈ pairs, ∃ p ∈ pr.1, 0 < p.2) → raw2 ≠ []) := by
  induction pairs with
  | nil =>
      intro raw totC
      refine ⟨raw, ?_, ?_, ?_, fun h => h, ?_⟩
      · simp [procSources]
      · intro s
        simp [blendNum]
      · simp [blendWorth]
      · rintro ⟨pr, hpr, _⟩
        exact absurd hpr (List.not_mem_nil pr)
  | cons hd0 t ih =>
      obtain ⟨d, c⟩ := hd0
      intro raw totC
      have hd : ∀ p ∈ d, 0 ≤ p.2 := (hsrc (d, c) (List.mem_cons_self _ _)).1
      have hcap : posSum d ≤ 1 - cash := (hsrc (d, c) (List.mem_cons_self _ _)).2
      have ht : ∀ pr ∈ t, (∀ p ∈ pr.1, 0 ≤ p.2) ∧ posSum pr.1 ≤ 1 - cash :=
        fun pr hpr => hsrc pr (List.mem_cons_of_mem _ hpr)
      obtain ⟨rawE, heqE, hlookE, hsumE, hneE, hne2E⟩ := procEntries_ok c d hd raw 0
      obtain ⟨raw2, heq2, hlook2, hsum2, hne2, hne22⟩ := ih ht rawE (totC + c)
      refine ⟨raw2, ?_, ?_, ?_, ?_, ?_⟩
      · simp only [procSources, heqE, zero_add, if_pos hcap, heq2, List.map_cons,
          List.sum_cons]
        congr 2
        ring
      · intro s
        rw [hlook2 s, hlookE s]
        simp only [blendNum, zero_add]
        ring
      · rw [hsum2, hsumE]
        simp only [blendWorth]
        ring
      · intro h
        exact hne2 (hneE h)
      · rintro ⟨pr, hpr, p, hp, hppos⟩
        rcases List.mem_cons.mp hpr with h1 | h1
        · subst h1
          exact hne2 (hne2E ⟨p, hp, hppos⟩)
        · exact hne22 ⟨pr, h1, p, hp, hppos⟩

theorem lookupD_map_div (l : EquilDict) (t : ℚ) (s : String) :
    lookupD (l.map (fun p => (p.1, p.2 / t))) s = lookupD l s / t := by
  induction l with
  | nil => simp [lookupD]
  | cons h tl ih =>
      obtain ⟨k, v⟩ := h
      simp only [List.map_cons, lookupD]
      split <;> simp [ih]

theorem sumValues_map_div (l : EquilDict) (t : ℚ) :
    sumValues (l.map (fun p => (p.1, p.2 / t))) = sumValues l / t := by
  induction l with
  | nil => simp [sumValues]
  | cons h tl ih =>
      obtain ⟨k, v⟩ := h
      simp only [sumValues, List.map_cons, List.sum_cons] at ih ⊢
      rw [ih]
      ring

theorem blendWorth_le (pairs : List (EquilDict × ℚ)) (bound : ℚ)
    (hc : ∀ pr ∈ pairs, 0 ≤ pr.2)
    (hb : ∀ pr ∈ pairs, posSum pr.1 ≤ bound) :
    blendWorth pairs ≤ bound * (pairs.map Prod.snd).sum := by
  induction pairs with
  | nil => simp [blendWorth]
  | cons hd0 t ih =>
      obtain ⟨d, c⟩ := hd0
      have hc0 : 0 ≤ c := hc (d, c) (List.mem_cons_self _ _)
      have hb0 : posSum d ≤ bound := hb (d, c) (List.mem_cons_self _ _)
      have hct : ∀ pr ∈ t, 0 ≤ pr.2 := fun pr hpr => hc pr (List.mem_cons_of_mem _ hpr)
      have hbt : ∀ pr ∈ t, posSum pr.1 ≤ bound :=
        fun pr hpr => hb pr (List.mem_cons_of_mem _ hpr)
      simp only [blendWorth, List.map_cons, List.sum_cons]
      have h1 : c * posSum d ≤ c * bound := mul_le_mul_of_nonneg_left hb0 hc0
      have h2 := ih hct hbt
      nlinarith [h1, h2]

theorem mem_zip_left (dl : List EquilDict) (cl : List ℚ)
    (hlen : dl.length = cl.length) (d : EquilDict) (hd : d ∈ dl) :
    ∃ c, (d, c) ∈ dl.zip cl := by
  induction dl generalizing cl with
  | nil => exact absurd hd (List.not_mem_nil d)
  | cons h t ih =>
      cases cl with
      | nil => simp at hlen
      | cons c0 ct =>
          rcases List.mem_cons.mp hd with h1 | h1
          · exact ⟨c0, by rw [h1]; exact List.mem_cons_self _ _⟩
          · obtain ⟨c, hc⟩ := ih ct (by simpa using hlen) h1
            exact ⟨c, List.mem_cons_of_mem _ hc⟩

theorem procSources_bad_source (cash : ℚ) (pre : List (EquilDict × ℚ))
    (hpre : ∀ pr ∈ pre, (∀ p ∈ pr.1, 0 ≤ p.2) ∧ posSum pr.1 ≤ 1 - cash)
    (dbad : EquilDict) (cbad : ℚ) (post : List (EquilDict × ℚ))
    (hnn : ∀ p ∈ dbad, 0 ≤ p.2)
    (hbad : ¬ posSum dbad ≤ 1 - cash) :
    ∀ (raw : EquilDict) (totC : ℚ),
      procSources cash raw totC (pre ++ (dbad, cbad) :: post) =
        Except.error "Too much total ratio for items" := by
  induction pre with
  | nil =>
      intro raw totC
      obtain ⟨rawE, heqE, _, _, _, _⟩ := procEntries_ok cbad dbad hnn raw 0
      rw [zero_add] at heqE
      simp only [List.nil_append, procSources, heqE]
      rw [if_neg hbad]
  | cons a t ih =>
      intro raw totC
      obtain ⟨d, c⟩ := a
      have hd := (hpre (d, c) (List.mem_cons_self _ _)).1
      have hcap := (hpre (d, c) (List.mem_cons_self _ _)).2
      have ht : ∀ pr ∈ t, (∀ p ∈ pr.1, 0 ≤ p.2) ∧ posSum pr.1 ≤ 1 - cash :=
        fun pr hpr => hpre pr (List.mem_cons_of_mem _ hpr)
      obtain ⟨rawE, heqE, _, _, _, _⟩ := procEntries_ok c d hd raw 0
      rw [zero_add] at heqE
      simp only [List.cons_append, procSources, heqE]
      rw [if_pos hcap]
      exact ih ht rawE (totC + c)

/-- C4: `linear_update` with matching non-negative coefficients of positive
total and per-source-valid mappings succeeds, and the new running
equilibrium assigns each symbol `Σ_i(ratio_i * coeff_i) / Σ_i(coeff_i)`,
the numerator ranging over the strictly positive ratios the symbol has in
the source mappings; and the cash-ratio invariant is validated per source,
not just on the result: a call in which any single source mapping exceeds
the cash-ratio bound (its ratios non-negative, the earlier sources valid)
fails, regardless of what the blended result would have been. -/
theorem C4_linear_update_blend (m : EquilibriumPortfolioManager)
    (equil_dictl : List EquilDict) (coefficients : List ℚ) (s : String)
    (hlen : equil_dictl.length = coefficients.length)
    (hc : ∀ c ∈ coefficients, 0 ≤ c)
    (hpos : 0 < coefficients.sum)
    (hsrc : ∀ d ∈ equil_dictl, (∀ p ∈ d, 0 ≤ p.2) ∧ sumValues d ≤ 1 - m.cash_ratio) :
    exceptOk (m.linear_update equil_dictl coefficients) = true ∧
    lookupD (runEquilOf (m.linear_update equil_dictl coefficients)) s =
      blendNum (equil_dictl.zip coefficients) s / coefficients.sum ∧
    (∀ (dl1 dl2 : List EquilDict) (cl1 cl2 : List ℚ) (dbad : EquilDict)
      (cbad : ℚ), dl1.length = cl1.length →
      (∀ d ∈ dl1, (∀ p ∈ d, 0 ≤ p.2) ∧ sumValues d ≤ 1 - m.cash_ratio) →
      (∀ p ∈ dbad, 0 ≤ p.2) →
      ¬ sumValues dbad ≤ 1 - m.cash_ratio →
      exceptOk (m.linear_update (dl1 ++ dbad :: dl2) (cl1 ++ cbad :: cl2))
        = false) := by
  have hden : coefficients.sum ≠ 0 := ne_of_gt hpos
  have hsrc2 : ∀ pr ∈ equil_dictl.zip coefficients,
      (∀ p ∈ pr.1, 0 ≤ p.2) ∧ posSum pr.1 ≤ 1 - m.cash_ratio := by
    intro pr hpr
    obtain ⟨hnn, hsum⟩ := hsrc pr.1 (List.of_mem_zip hpr).1
    exact ⟨hnn, by rw [posSum_eq_sumValues pr.1 hnn]; exact hsum⟩
  obtain ⟨raw2, heq, hlook, hsum, _, _⟩ :=
    procSources_ok m.cash_ratio (equil_dictl.zip coefficients) hsrc2 [] 0
  have hmap : (equil_dictl.zip coefficients).map Prod.snd = coefficients :=
    List.map_snd_zip _ _ (le_of_eq hlen.symm)
  rw [hmap, zero_add] at heq
  have hdl : equil_dictl ≠ [] := by
    intro h
    subst h
    have : coefficients = [] := List.length_eq_zero.mp (by simpa using hlen.symm)
    subst this
    simp at hpos
  have hcash_le : (0:ℚ) ≤ 1 - m.cash_ratio := by
    obtain ⟨d0, hd0⟩ := List.exists_mem_of_ne_nil equil_dictl hdl
    have h1 := (hsrc d0 hd0).2
    have h0 : 0 ≤ sumValues d0 := by
      rw [← posSum_eq_sumValues d0 (hsrc d0 hd0).1]
      exact posSum_nonneg d0
    linarith
  have hLU : m.linear_update equil_dictl coefficients =
      Except.bind (divideBy raw2 coefficients.sum)
        (fun ne => m.set_equilibrium ne) := by
    simp only [EquilibriumPortfolioManager.linear_update, bind, Except.bind, heq]
  have key : ∃ mgr2, m.linear_update equil_dictl coefficients = Except.ok mgr2 ∧
      ∀ s2, lookupD mgr2.running_equilibrium s2 =
        blendNum (equil_dictl.zip coefficients) s2 / coefficients.sum := by
    cases hraw : raw2 with
    | nil =>
        refine ⟨{ m with running_equilibrium := [] }, ?_, ?_⟩
        · rw [hLU, hraw]
          simp only [divideBy, Except.bind, EquilibriumPortfolioManager.set_equilibrium]
          rw [if_pos (by simpa [sumValues] using hcash_le)]
        · intro s2
          have h1 := hlook s2
          rw [hraw] at h1
          simp only [lookupD, zero_add] at h1
          show lookupD [] s2 = _
          simp only [lookupD]
          rw [← h1, zero_div]
    | cons a l =>
        have hblend : sumValues raw2 = blendWorth (equil_dictl.zip coefficients) := by
          rw [hsum]
          simp [sumValues]
        have hbound : blendWorth (equil_dictl.zip coefficients) ≤
            (1 - m.cash_ratio) * coefficients.sum := by
          have h2 := blendWorth_le (equil_dictl.zip coefficients) (1 - m.cash_ratio)
            (fun pr hpr => hc pr.2 (List.of_mem_zip hpr).2)
            (fun pr hpr => (hsrc2 pr hpr).2)
          rw [hmap] at h2
          exact h2
        have hcond : sumValues (raw2.map (fun p => (p.1, p.2 / coefficients.sum))) ≤
            1 - m.cash_ratio := by
          rw [sumValues_map_div, div_le_iff₀ hpos, hblend]
          exact hbound
        refine ⟨{ m with running_equilibrium := raw2.map (fun p => (p.1, p.2 / coefficients.sum)) }, ?_, ?_⟩
        · rw [hLU, hraw]
          simp only [divideBy, Except.bind]
          rw [if_neg hden]
          simp only [Except.bind, EquilibriumPortfolioManager.set_equilibrium]
          rw [← hraw, if_pos hcond]
        · intro s2
          simp only
          rw [lookupD_map_div, hlook s2]
          simp [lookupD]
  obtain ⟨mgr2, hm, hl⟩ := key
  rw [hm]
  refine ⟨rfl, hl s, ?_⟩
  intro dl1 dl2 cl1 cl2 dbad cbad hlen1 hval1 hnn hbad
  have hzip : (dl1 ++ dbad :: dl2).zip (cl1 ++ cbad :: cl2) =
      dl1.zip cl1 ++ (dbad, cbad) :: dl2.zip cl2 := by
    rw [List.zip_append hlen1, List.zip_cons_cons]
  have hpre : ∀ pr ∈ dl1.zip cl1,
      (∀ p ∈ pr.1, 0 ≤ p.2) ∧ posSum pr.1 ≤ 1 - m.cash_ratio := by
    intro pr hpr
    obtain ⟨h1, h2⟩ := hval1 pr.1 (List.of_mem_zip hpr).1
    exact ⟨h1, by rw [posSum_eq_sumValues pr.1 h1]; exact h2⟩
  have hbad2 : ¬ posSum dbad ≤ 1 - m.cash_ratio := by
    rw [posSum_eq_sumValues dbad hnn]
    exact hbad
  have herr := procSources_bad_source m.cash_ratio (dl1.zip cl1) hpre dbad cbad
    (dl2.zip cl2) hnn hbad2 [] 0
  simp only [EquilibriumPortfolioManager.linear_update, hzip, herr, bind,
    Except.bind, exceptOk]

/-- C5: for parameters `step` and `cap` in `(0, 1]` the progression
function computes `min(cap, step * seconds / 86400)`; hence it is 0 at
0 seconds, monotone non-decreasing in seconds, and equal to `cap` for all
sufficiently large gaps; a parameter outside `(0, 1]` fails the validation
asserts. -/
theorem C5_capped_daily_progression (step cap s t : ℚ)
    (hstep : 0 < step ∧ step ≤ 1) (hcap : 0 < cap ∧ cap ≤ 1) :
    capped_daily_progression s step cap =
      Except.ok (min cap (step * (s / 86400))) ∧
    capped_daily_progression 0 step cap = Except.ok 0 ∧
    (s ≤ t → min cap (step * (s / 86400)) ≤ min cap (step * (t / 86400))) ∧
    (cap * 86400 / step ≤ s →
      capped_daily_progression s step cap = Except.ok cap) ∧
    (∀ step2 cap2 : ℚ,
      (¬ (0 < step2 ∧ step2 ≤ 1) ∨ ¬ (0 < cap2 ∧ cap2 ≤ 1)) →
      exceptOk (capped_daily_progression s step2 cap2) = false) := by
  obtain ⟨hs1, hs2⟩ := hstep
  obtain ⟨hc1, hc2⟩ := hcap
  refine ⟨?_, ?_, ?_, ?_, ?_⟩
  · simp [capped_daily_progression, hs1, hs2, hc1, hc2]
  · simp only [capped_daily_progression, if_pos (And.intro hs1 hs2),
      if_pos (And.intro hc1 hc2), zero_div, mul_zero]
    rw [min_eq_right (le_of_lt hc1)]
  · intro hst
    refine min_le_min le_rfl ?_
    have h1 : s / 86400 ≤ t / 86400 := by
      apply div_le_div_of_nonneg_right hst  -- placeholder, fixed below if wrong
      norm_num
    exact mul_le_mul_of_nonneg_left h1 (le_of_lt hs1)
  · intro hbig
    have h1 : cap * 86400 ≤ s * step := (div_le_iff₀ hs1).mp hbig
    have h2 : cap ≤ step * (s / 86400) := by
      rw [mul_div_assoc']
      rw [le_div_iff₀ (by norm_num : (0:ℚ) < 86400)]
      nlinarith
    simp only [capped_daily_progression, if_pos (And.intro hs1 hs2),
      if_pos (And.intro hc1 hc2)]
    rw [min_eq_left h2]
  · intro step2 cap2 hbad
    rcases hbad with h | h
    · simp [capped_daily_progression, h, exceptOk]
    · by_cases h2 : 0 < step2 ∧ step2 ≤ 1
      · simp [capped_daily_progression, h2, h, exceptOk]
      · simp [capped_daily_progression, h2, exceptOk]

/-- Witness for C5 at `step = 3/100`, `cap = 1/2`, `seconds` 0 and 86400. -/
theorem C5_witness :
    capped_daily_progression 0 (3/100) (1/2) =
      Except.ok (min (1/2) ((3/100) * ((0:ℚ) / 86400))) ∧
    capped_daily_progression 0 (3/100) (1/2) = Except.ok 0 ∧
    ((0:ℚ) ≤ 86400 → min (1/2 : ℚ) ((3/100) * ((0:ℚ) / 86400)) ≤
      min (1/2 : ℚ) ((3/100) * ((86400:ℚ) / 86400))) ∧
    ((1/2 : ℚ) * 86400 / (3/100) ≤ 0 →
      capped_daily_progression 0 (3/100) (1/2) = Except.ok (1/2)) ∧
    (∀ step2 cap2 : ℚ,
      (¬ (0 < step2 ∧ step2 ≤ 1) ∨ ¬ (0 < cap2 ∧ cap2 ≤ 1)) →
      exceptOk (capped_daily_progression 0 step2 cap2) = false) :=
  C5_capped_daily_progression (3/100) (1/2) 0 86400 (by norm_num) (by norm_num)

/-- C3 counterexample: the `equilibrium` setter accepts a mapping whose only
ratio is negative (the sum check passes trivially), so success does not
require every ratio to be non-negative. -/
theorem C3_counterexample :
    (-(1:ℚ)/2 < 0) ∧
    mgr0.set_equilibrium [("A", -(1:ℚ)/2)] =
      Except.ok { initial_equilibrium := [("A", 1/10)],
                  running_equilibrium := [("A", -(1:ℚ)/2)],
                  params := Params.empty } := by
  constructor
  · norm_num
  · norm_num [mgr0, EquilibriumPortfolioManager.set_equilibrium, sumValues,
      EquilibriumPortfolioManager.cash_ratio, EquilibriumPortfolioManager.init,
      Params.empty]

/-- C3 amended: assigning a running equilibrium succeeds exactly when the
sum of the ratios is at most `1 - cash_ratio` (cash ratio from params,
default 0.03); the setter never clamps, it replaces the mapping wholesale on
success and raises otherwise — but it does not check ratios for
non-negativity. -/
theorem C3_set_equilibrium_iff (m : EquilibriumPortfolioManager) (d : EquilDict) :
    (exceptOk (m.set_equilibrium d) = true ↔ sumValues d ≤ 1 - m.cash_ratio) ∧
    (sumValues d ≤ 1 - m.cash_ratio →
      m.set_equilibrium d = Except.ok { m with running_equilibrium := d }) := by
  constructor
  · constructor
    · intro h
      by_contra hc
      simp [EquilibriumPortfolioManager.set_equilibrium, hc, exceptOk] at h
    · intro h
      simp [EquilibriumPortfolioManager.set_equilibrium, h, exceptOk]
  · intro h
    simp [EquilibriumPortfolioManager.set_equilibrium, h]

/-- A manager whose running equilibrium was moved away from its initial one
through the setter (from 10% to 20% on A). -/
def mgrRT : EquilibriumPortfolioManager :=
  match mgr0.set_equilibrium [("A", 1/5)] with
  | Except.ok m2 => m2
  | Except.error _ => mgr0

/-- C7 counterexample: dumping a manager whose running equilibrium differs
from its initial one and loading the blob yields a manager whose initial
equilibrium is the dumped RUNNING equilibrium — not the dumped manager's
initial equilibrium, so the loaded manager's observable state differs. -/
theorem C7_counterexample :
    mgrRT.initial_equilibrium = [("A", 1/10)] ∧
    mgrRT.running_equilibrium = [("A", 1/5)] ∧
    (EquilibriumPortfolioManager.load_pickle mgrRT.dump_pickle).initial_equilibrium ≠
      mgrRT.initial_equilibrium := by
  refine ⟨?_, ?_, ?_⟩ <;>
    norm_num [mgrRT, mgr0, EquilibriumPortfolioManager.set_equilibrium, sumValues,
      EquilibriumPortfolioManager.cash_ratio, EquilibriumPortfolioManager.init,
      Params.empty, EquilibriumPortfolioManager.load_pickle,
      EquilibriumPortfolioManager.dump_pickle]

/-- C7 amended: the pickle round trip reconstructs a manager with the same
running equilibrium and params as the dumped one, but its initial
equilibrium equals the dumped manager's RUNNING equilibrium; the round trip
reproduces the full observable state exactly when running and initial
coincided at dump time. -/
theorem C7_pickle_roundtrip (m : EquilibriumPortfolioManager) :
    (EquilibriumPortfolioManager.load_pickle m.dump_pickle).running_equilibrium =
      m.running_equilibrium ∧
    (EquilibriumPortfolioManager.load_pickle m.dump_pickle).params = m.params ∧
    (EquilibriumPortfolioManager.load_pickle m.dump_pickle).initial_equilibrium =
      m.running_equilibrium ∧
    (m.initial_equilibrium = m.running_equilibrium →
      EquilibriumPortfolioManager.load_pickle m.dump_pickle = m) := by
  refine ⟨rfl, rfl, rfl, ?_⟩
  intro h
  cases m with
  | mk i r p =>
      simp only at h
      subst h
      rfl

/-- C8 counterexample: a `linear_update` call whose single coefficient is 0
(so the coefficients sum to zero) but whose source carries no strictly
positive ratio succeeds — the normalization dict is empty, no division is
performed, and the running equilibrium is set to the empty mapping. -/
theorem C8_counterexample :
    ([(0:ℚ)].sum = 0) ∧
    mgr0.linear_update [[("A", 0)]] [(0:ℚ)] =
      Except.ok { initial_equilibrium := [("A", 1/10)],
                  running_equilibrium := [],
                  params := Params.empty } := by
  constructor
  · simp
  · norm_num [mgr0, EquilibriumPortfolioManager.linear_update, procSources,
      procEntries, divideBy, EquilibriumPortfolioManager.set_equilibrium, sumValues,
      EquilibriumPortfolioManager.cash_ratio, EquilibriumPortfolioManager.init,
      Params.empty, bind, Except.bind]

/-- C8 amended: a `linear_update` call whose coefficients sum to zero fails
with the division-by-zero error — provided some source mapping carries a
strictly positive ratio (so the normalization dict is non-empty and a
division is actually attempted); the failure happens before any assignment,
so no new running equilibrium is set. -/
theorem C8_zero_total_coeff (m : EquilibriumPortfolioManager)
    (equil_dictl : List EquilDict) (coefficients : List ℚ)
    (hlen : equil_dictl.length = coefficients.length)
    (hzero : coefficients.sum = 0)
    (hsrc : ∀ d ∈ equil_dictl, (∀ p ∈ d, 0 ≤ p.2) ∧ sumValues d ≤ 1 - m.cash_ratio)
    (hpos : ∃ d ∈ equil_dictl, ∃ p ∈ d, 0 < p.2) :
    exceptOk (m.linear_update equil_dictl coefficients) = false := by
  have hsrc2 : ∀ pr ∈ equil_dictl.zip coefficients,
      (∀ p ∈ pr.1, 0 ≤ p.2) ∧ posSum pr.1 ≤ 1 - m.cash_ratio := by
    intro pr hpr
    obtain ⟨hnn, hsum⟩ := hsrc pr.1 (List.of_mem_zip hpr).1
    exact ⟨hnn, by rw [posSum_eq_sumValues pr.1 hnn]; exact hsum⟩
  obtain ⟨raw2, heq, hlook, hsum, hne, hne2⟩ :=
    procSources_ok m.cash_ratio (equil_dictl.zip coefficients) hsrc2 [] 0
  have hmap : (equil_dictl.zip coefficients).map Prod.snd = coefficients :=
    List.map_snd_zip _ _ (le_of_eq hlen.symm)
  rw [hmap, zero_add, hzero] at heq
  have hraw : raw2 ≠ [] := by
    obtain ⟨d, hd, p, hp, hppos⟩ := hpos
    obtain ⟨c, hc⟩ := mem_zip_left equil_dictl coefficients hlen d hd
    exact hne2 ⟨(d, c), hc, p, hp, hppos⟩
  simp only [EquilibriumPortfolioManager.linear_update, bind, Except.bind, heq]
  cases hr : raw2 with
  | nil => exact absurd hr hraw
  | cons a l => simp [divideBy, Except.bind, exceptOk]

/-- Witness for C8 amended: one source with a positive ratio for A and the
single coefficient 0. -/
theorem C8_witness :
    exceptOk (mgr0.linear_update [[("A", 1/2)]] [(0:ℚ)]) = false :=
  C8_zero_total_coeff mgr0 [[("A", 1/2)]] [(0:ℚ)] (by norm_num) (by norm_num)
    (by
      intro d hd
      simp only [List.mem_singleton] at hd
      subst hd
      constructor
      · intro p hp
        simp only [List.mem_singleton] at hp
        subst hp
        norm_num
      · norm_num [sumValues, mgr0, EquilibriumPortfolioManager.cash_ratio,
          EquilibriumPortfolioManager.init, Params.empty])
    ⟨[("A", 1/2)], by simp, ("A", 1/2), by simp, by norm_num⟩

/-- C9 counterexample: on a concrete manager and folio the simulated-time
`tick_write` completes a buy decision and then falls off the end of the
function body, so its Python return value is `None`, not the elapsed
`gap_seconds` (86400 here). -/
theorem C9_counterexample :
    PseudoTimeEquilibrium.tick_write mgr0 folioW =
      Except.ok ([MarketOrder.buy "A" (147/100)], (none : Option ℚ)) ∧
    (none : Option ℚ) ≠ some folioW.tick_gap := by
  constructor
  · norm_num [mgr0, folioW, PseudoTimeEquilibrium.tick_write, pseudo_process,
      pseudo_symbol_step, EquilibriumPortfolioManager.progression,
      EquilibriumPortfolioManager.init, Params.empty, default_progression,
      capped_daily_progression, bind, Except.bind]
  · simp

/-- C9 amended: the real-time `tick_write` returns `gap_seconds` as obtained
from the folio tick, while the simulated-time `tick_write`, whenever it
completes, returns `None`. -/
theorem C9_gap_seconds (m : EquilibriumPortfolioManager) (folio : Folio)
    (execute : Bool) (orders : List MarketOrder) (ret : Option ℚ)
    (hok : PseudoTimeEquilibrium.tick_write m folio = Except.ok (orders, ret)) :
    (RealTimeEquilibrium.tick_write m folio execute).2 = folio.tick_gap ∧
    ret = none := by
  constructor
  · rfl
  · cases hX : pseudo_process m folio folio.tick_gap m.running_equilibrium with
    | error e =>
        simp [PseudoTimeEquilibrium.tick_write, bind, Except.bind, hX] at hok
    | ok os =>
        simp only [PseudoTimeEquilibrium.tick_write, bind, Except.bind, hX,
          Except.ok.injEq, Prod.mk.injEq] at hok
        exact hok.2.symm

/-- Witness for C9 amended at the concrete manager and folio. -/
theorem C9_witness :
    (RealTimeEquilibrium.tick_write mgr0 folioW true).2 = folioW.tick_gap ∧
    (none : Option ℚ) = none :=
  C9_gap_seconds mgr0 folioW true [MarketOrder.buy "A" (147/100)] none
    (by norm_num [mgr0, folioW, PseudoTimeEquilibrium.tick_write, pseudo_process,
      pseudo_symbol_step, EquilibriumPortfolioManager.progression,
      EquilibriumPortfolioManager.init, Params.empty, default_progression,
      capped_daily_progression, bind, Except.bind])

/-- C1: with target worth `ratio * worth` and step fraction `stepv`, a
symbol whose target exceeds its ask worth is bought — amount
`(target - ask) * step` in the simulated-time variant and
`(target - current) * step` in the real-time variant (ask and current
adjusted by open orders there) — and otherwise, when a position exists and
the target is below the bid worth, it is sold — amount
`(bid - target) * step` in the simulated-time variant and
`(current - target) * step` in the real-time variant. -/
theorem C1_decision_amounts (m : EquilibriumPortfolioManager) (folio : Folio)
    (symbol : String) (ratio stepv target pask pbid ord cur rask rbid : ℚ)
    (hprog : m.progression folio.tick_gap = Except.ok stepv)
    (hstep : stepv ≤ 1)
    (hbuy : folio.buy_fails symbol = false)
    (hsell : folio.sell_fails symbol = false)
    (hfw : folio.worth ≠ 0)
    (htarget : target = ratio * folio.worth)
    (hpask : pask = if ((folio.getItem symbol).name == symbol) then
      (folio.getItem symbol).ask_worth else 0)
    (hpbid : pbid = if ((folio.getItem symbol).name == symbol) then
      (folio.getItem symbol).bid_worth else 0)
    (hord : ord = folio.open_order_values symbol)
    (hcur : cur = (if ((folio.getItem symbol).name == symbol) then
      (folio.getItem symbol).worth else 0) + ord)
    (hrask : rask = pask + ord)
    (hrbid : rbid = pbid + ord) :
    (target > pask →
      pseudo_symbol_step m folio folio.tick_gap symbol ratio =
        Except.ok [MarketOrder.buy symbol ((target - pask) * stepv)]) ∧
    (¬ target > pask → ((folio.getItem symbol).name == symbol) = true →
      target < pbid →
      pseudo_symbol_step m folio folio.tick_gap symbol ratio =
        Except.ok [MarketOrder.sell symbol ((pbid - target) * stepv)]) ∧
    (target > rask →
      real_subroutine m folio folio.tick_gap folio.worth true symbol ratio =
        Except.ok [MarketOrder.buy symbol ((target - cur) * stepv)]) ∧
    (¬ target > rask → ((folio.getItem symbol).name == symbol) = true →
      target < rbid →
      real_subroutine m folio folio.tick_gap folio.worth true symbol ratio =
        Except.ok [MarketOrder.sell symbol ((cur - target) * stepv)]) := by
  subst htarget hpask hpbid hord hcur hrask hrbid
  refine ⟨?_, ?_, ?_, ?_⟩
  · intro h
    simp only [pseudo_symbol_step, hprog, bind, Except.bind]
    rw [if_pos hstep, if_pos h, hbuy]
    simp
  · intro h1 hex h2
    simp only [pseudo_symbol_step, hprog, bind, Except.bind]
    rw [if_pos hstep, if_neg h1, if_pos (And.intro hex h2), hsell]
    simp
  · intro h
    simp only [real_subroutine, hprog, bind, Except.bind]
    rw [if_neg hfw, if_pos hstep, if_pos h]
    simp [execOrder, hbuy]
  · intro h1 hex h2
    simp only [real_subroutine, hprog, bind, Except.bind]
    rw [if_neg hfw, if_pos hstep, if_neg h1, if_pos (And.intro hex h2)]
    simp [execOrder, hsell]

/-- Witness for C1 at symbol A of the concrete folio: worth 1000, ratio
1/10, target 100, ask 51, bid 49, current 50, step 3/100. -/
theorem C1_witness :
    ((100:ℚ) > 51 →
      pseudo_symbol_step mgr0 folioW folioW.tick_gap "A" (1/10) =
        Except.ok [MarketOrder.buy "A" (((100:ℚ) - 51) * (3/100))]) ∧
    (¬ (100:ℚ) > 51 → ((folioW.getItem "A").name == "A") = true →
      (100:ℚ) < 49 →
      pseudo_symbol_step mgr0 folioW folioW.tick_gap "A" (1/10) =
        Except.ok [MarketOrder.sell "A" (((49:ℚ) - 100) * (3/100))]) ∧
    ((100:ℚ) > 51 →
      real_subroutine mgr0 folioW folioW.tick_gap folioW.worth true "A" (1/10) =
        Except.ok [MarketOrder.buy "A" (((100:ℚ) - 50) * (3/100))]) ∧
    (¬ (100:ℚ) > 51 → ((folioW.getItem "A").name == "A") = true →
      (100:ℚ) < 49 →
      real_subroutine mgr0 folioW folioW.tick_gap folioW.worth true "A" (1/10) =
        Except.ok [MarketOrder.sell "A" (((50:ℚ) - 100) * (3/100))]) :=
  C1_decision_amounts mgr0 folioW "A" (1/10) (3/100) 100 51 49 0 50 51 49
    (by norm_num [mgr0, folioW, EquilibriumPortfolioManager.progression,
        EquilibriumPortfolioManager.init, Params.empty, default_progression,
        capped_daily_progression])
    (by norm_num) (by norm_num [folioW]) (by norm_num [folioW])
    (by norm_num [folioW]) (by norm_num [folioW]) (by norm_num [folioW])
    (by norm_num [folioW]) (by norm_num [folioW]) (by norm_num [folioW])
    (by norm_num) (by norm_num)

/-- C2: a symbol whose target worth lies strictly between its bid worth and
its ask worth (the real-time worths adjusted by open orders) triggers no
buy and no sell in either `tick_write` variant: the simulated-time step
places no order for it, and the guarded real-time subroutine contributes no
order whatever the execute flag. -/
theorem C2_dead_zone (m : EquilibriumPortfolioManager) (folio : Folio)
    (symbol : String) (ratio stepv target pask pbid ord : ℚ)
    (hprog : m.progression folio.tick_gap = Except.ok stepv)
    (hstep : stepv ≤ 1)
    (htarget : target = ratio * folio.worth)
    (hpask : pask = if ((folio.getItem symbol).name == symbol) then
      (folio.getItem symbol).ask_worth else 0)
    (hpbid : pbid = if ((folio.getItem symbol).name == symbol) then
      (folio.getItem symbol).bid_worth else 0)
    (hord : ord = folio.open_order_values symbol)
    (hfw : folio.worth ≠ 0)
    (hp1 : pbid < target) (hp2 : target < pask)
    (hr1 : pbid + ord < target) (hr2 : target < pask + ord) :
    pseudo_symbol_step m folio folio.tick_gap symbol ratio = Except.ok [] ∧
    (∀ execute : Bool,
      guarded_subroutine m folio folio.tick_gap folio.worth execute symbol ratio
        = []) := by
  subst htarget hpask hpbid hord
  constructor
  · simp only [pseudo_symbol_step, hprog, bind, Except.bind]
    rw [if_pos hstep, if_neg (not_lt.mpr (le_of_lt hp2))]
    rw [if_neg]
    rintro ⟨-, habs⟩
    exact absurd (lt_trans hp1 habs) (lt_irrefl _)
  · intro execute
    simp only [guarded_subroutine, real_subroutine, hprog, bind, Except.bind]
    rw [if_neg hfw, if_pos hstep, if_neg (not_lt.mpr (le_of_lt hr2))]
    rw [if_neg]
    rintro ⟨-, habs⟩
    exact absurd (lt_trans hr1 habs) (lt_irrefl _)

/-- Witness for C2 at symbol A of the concrete folio: ratio 1/20, target 50
strictly between bid 49 and ask 51. -/
theorem C2_witness :
    pseudo_symbol_step mgr0 folioW folioW.tick_gap "A" (1/20) = Except.ok [] ∧
    (∀ execute : Bool,
      guarded_subroutine mgr0 folioW folioW.tick_gap folioW.worth execute "A"
        (1/20) = []) :=
  C2_dead_zone mgr0 folioW "A" (1/20) (3/100) 50 51 49 0
    (by norm_num [mgr0, folioW, EquilibriumPortfolioManager.progression,
        EquilibriumPortfolioManager.init, Params.empty, default_progression,
        capped_daily_progression])
    (by norm_num) (by norm_num [folioW]) (by norm_num [folioW])
    (by norm_num [folioW]) (by norm_num [folioW]) (by norm_num [folioW])
    (by norm_num) (by norm_num) (by norm_num) (by norm_num)

theorem exceptOk_false_iff {ε α : Type} (e : Except ε α) :
    exceptOk e = false ↔ ∃ err, e = Except.error err := by
  cases e <;> simp [exceptOk]

theorem exceptOk_true_iff {ε α : Type} (e : Except ε α) :
    exceptOk e = true ↔ ∃ a, e = Except.ok a := by
  cases e <;> simp [exceptOk]

theorem guarded_subroutine_of_fail (m : EquilibriumPortfolioManager)
    (folio : Folio) (gap fw : ℚ) (execute : Bool) (symbol : String) (ratio : ℚ)
    (h : exceptOk (real_subroutine m folio gap fw execute symbol ratio) = false) :
    guarded_subroutine m folio gap fw execute symbol ratio = [] := by
  rw [exceptOk_false_iff] at h
  obtain ⟨err, herr⟩ := h
  simp [guarded_subroutine, herr]

theorem real_process_append (m : EquilibriumPortfolioManager) (folio : Folio)
    (gap fw : ℚ) (execute : Bool) (l1 l2 : EquilDict) :
    real_process m folio gap fw execute (l1 ++ l2) =
      real_process m folio gap fw execute l1 ++
        real_process m folio gap fw execute l2 := by
  induction l1 with
  | nil => simp [real_process]
  | cons a t ih =>
      obtain ⟨s, r⟩ := a
      simp [real_process, ih]

theorem pseudo_process_cons_ok (m : EquilibriumPortfolioManager) (folio : Folio)
    (gap : ℚ) (a : String × ℚ) (t : EquilDict)
    (h : exceptOk (pseudo_process m folio gap (a :: t)) = true) :
    exceptOk (pseudo_symbol_step m folio gap a.1 a.2) = true ∧
    exceptOk (pseudo_process m folio gap t) = true := by
  obtain ⟨s, r⟩ := a
  cases h1 : pseudo_symbol_step m folio gap s r with
  | error e =>
      simp [pseudo_process, h1, bind, Except.bind, exceptOk] at h
  | ok os1 =>
      cases h2 : pseudo_process m folio gap t with
      | error e =>
          simp [pseudo_process, h1, h2, bind, Except.bind, exceptOk] at h
      | ok os2 => simp [exceptOk]

/-- C6: in the real-time variant a symbol whose guarded subroutine raises
(e.g. an order-submission failure) contributes no order and leaves every
other symbol's processing unchanged, and `tick_write` still completes,
returning the orders of the remaining symbols; in the simulated-time
variant a failing symbol makes the whole per-symbol loop raise to the
caller. -/
theorem C6_error_containment (m : EquilibriumPortfolioManager) (folio : Folio)
    (gap fw : ℚ) (execute : Bool) (l1 l2 : EquilDict) (symbol : String)
    (ratio : ℚ)
    (hfail : exceptOk (real_subroutine m folio gap fw execute symbol ratio)
      = false)
    (pl1 pl2 : EquilDict) (psym : String) (pratio : ℚ)
    (hpfail : exceptOk (pseudo_symbol_step m folio gap psym pratio) = false)
    (hpok : exceptOk (pseudo_process m folio gap pl1) = true) :
    real_process m folio gap fw execute (l1 ++ (symbol, ratio) :: l2) =
      real_process m folio gap fw execute l1 ++
        real_process m folio gap fw execute l2 ∧
    exceptOk (pseudo_process m folio gap (pl1 ++ (psym, pratio) :: pl2))
      = false := by
  constructor
  · rw [real_process_append]
    simp [real_process, guarded_subroutine_of_fail m folio gap fw execute
      symbol ratio hfail]
  · induction pl1 with
    | nil =>
        rw [exceptOk_false_iff] at hpfail
        obtain ⟨err, herr⟩ := hpfail
        simp [pseudo_process, herr, bind, Except.bind, exceptOk]
    | cons a t ih =>
        obtain ⟨hhead, htail⟩ := pseudo_process_cons_ok m folio gap a t hpok
        rw [exceptOk_true_iff] at hhead
        obtain ⟨os1, hos1⟩ := hhead
        have hrec := ih htail
        rw [exceptOk_false_iff] at hrec
        obtain ⟨err, herr⟩ := hrec
        obtain ⟨s, r⟩ := a
        simp only [List.cons_append, pseudo_process, hos1, bind, Except.bind,
          List.append_eq, herr, exceptOk]

/-- Witness for C6: submitting B's order fails on the concrete folio; in the
real-time variant A and C still trade and nothing raises, in the
simulated-time variant the whole loop raises. -/
theorem C6_witness :
    real_process mgr0 folioB folioB.tick_gap folioB.worth true
        ([("A", 1/10)] ++ ("B", 1/10) :: [("C", 1/10)]) =
      real_process mgr0 folioB folioB.tick_gap folioB.worth true
          [("A", 1/10)] ++
        real_process mgr0 folioB folioB.tick_gap folioB.worth true
          [("C", 1/10)] ∧
    exceptOk (pseudo_process mgr0 folioB folioB.tick_gap
        ([("A", 1/10)] ++ ("B", 1/10) :: [("C", 1/10)])) = false :=
  C6_error_containment mgr0 folioB folioB.tick_gap folioB.worth true
    [("A", 1/10)] [("C", 1/10)] "B" (1/10)
    (by norm_num [mgr0, folioB, real_subroutine, execOrder,
        EquilibriumPortfolioManager.progression, EquilibriumPortfolioManager.init,
        Params.empty, default_progression, capped_daily_progression, bind,
        Except.bind, exceptOk])
    [("A", 1/10)] [("C", 1/10)] "B" (1/10)
    (by norm_num [mgr0, folioB, pseudo_symbol_step,
        EquilibriumPortfolioManager.progression, EquilibriumPortfolioManager.init,
        Params.empty, default_progression, capped_daily_progression, bind,
        Except.bind, exceptOk])
    (by
      norm_num [mgr0, folioB, pseudo_process, pseudo_symbol_step,
        EquilibriumPortfolioManager.progression, EquilibriumPortfolioManager.init,
        Params.empty, default_progression, capped_daily_progression, bind,
        Except.bind, exceptOk]
      decide)

/-- C10: in the real-time subroutine the HOLD branch (target at most the
adjusted ask, and no position below the adjusted bid) assigns none of
`action`, `amount`, `func`, so building the order message raises an
unbound-local error regardless of the execute flag; the guard catches it
and the symbol contributes no order. -/
theorem C10_hold_unbound_local (m : EquilibriumPortfolioManager) (folio : Folio)
    (gap fw : ℚ) (execute : Bool) (symbol : String) (ratio stepv : ℚ)
    (hprog : m.progression gap = Except.ok stepv)
    (hstep : stepv ≤ 1)
    (hfw : fw ≠ 0)
    (hnotbuy : ¬ ratio * fw > (if ((folio.getItem symbol).name == symbol) then
      (folio.getItem symbol).ask_worth else 0) + folio.open_order_values symbol)
    (hnotsell : ¬ (((folio.getItem symbol).name == symbol) = true ∧
      ratio * fw < (if ((folio.getItem symbol).name == symbol) then
        (folio.getItem symbol).bid_worth else 0) +
        folio.open_order_values symbol)) :
    real_subroutine m folio gap fw execute symbol ratio =
      Except.error
        "UnboundLocalError: local variable action referenced before assignment" ∧
    guarded_subroutine m folio gap fw execute symbol ratio = [] := by
  have h1 : real_subroutine m folio gap fw execute symbol ratio =
      Except.error
        "UnboundLocalError: local variable action referenced before assignment" := by
    simp only [real_subroutine, hprog, bind, Except.bind]
    rw [if_neg hfw, if_pos hstep, if_neg hnotbuy, if_neg hnotsell]
  exact ⟨h1, by simp [guarded_subroutine, h1]⟩

/-- Witness for C10 at symbol A of the concrete folio with ratio 1/20:
target 50 sits in the dead zone, and the subroutine raises even with the
execute flag set. -/
theorem C10_witness :
    real_subroutine mgr0 folioW folioW.tick_gap folioW.worth true "A" (1/20) =
      Except.error
        "UnboundLocalError: local variable action referenced before assignment" ∧
    guarded_subroutine mgr0 folioW folioW.tick_gap folioW.worth true "A"
      (1/20) = [] :=
  C10_hold_unbound_local mgr0 folioW folioW.tick_gap folioW.worth true "A"
    (1/20) (3/100)
    (by norm_num [mgr0, folioW, EquilibriumPortfolioManager.progression,
        EquilibriumPortfolioManager.init, Params.empty, default_progression,
        capped_daily_progression])
    (by norm_num) (by norm_num [folioW]) (by norm_num [folioW])
    (by norm_num [folioW])

/-- Witness for C4: blending the sources A:1/2 and A:1/4,B:1/4 with
coefficients 1 and 1 succeeds with A receiving (1/2 + 1/4) / 2, and the
per-source validation rejects the pair A:49/50 (over the 97/100 cap) and
A:0 with coefficients 1 and 1, although their blended result 49/100 would
have passed the setter. -/
theorem C4_witness :
    (exceptOk (mgr0.linear_update [[("A", 1/2)], [("A", 1/4), ("B", 1/4)]]
      [(1:ℚ), 1]) = true ∧
    lookupD (runEquilOf (mgr0.linear_update
        [[("A", 1/2)], [("A", 1/4), ("B", 1/4)]] [(1:ℚ), 1])) "A" =
      blendNum ([[("A", 1/2)], [("A", 1/4), ("B", 1/4)]].zip [(1:ℚ), 1]) "A" /
        [(1:ℚ), 1].sum ∧
    (∀ (dl1 dl2 : List EquilDict) (cl1 cl2 : List ℚ) (dbad : EquilDict)
      (cbad : ℚ), dl1.length = cl1.length →
      (∀ d ∈ dl1, (∀ p ∈ d, 0 ≤ p.2) ∧ sumValues d ≤ 1 - mgr0.cash_ratio) →
      (∀ p ∈ dbad, 0 ≤ p.2) →
      ¬ sumValues dbad ≤ 1 - mgr0.cash_ratio →
      exceptOk (mgr0.linear_update (dl1 ++ dbad :: dl2) (cl1 ++ cbad :: cl2))
        = false)) ∧
    exceptOk (mgr0.linear_update [[("A", 49/50)], [("A", 0)]] [(1:ℚ), 1])
      = false := by
  have h := C4_linear_update_blend mgr0 [[("A", 1/2)], [("A", 1/4), ("B", 1/4)]]
    [(1:ℚ), 1] "A" (by norm_num) (by norm_num) (by norm_num)
    (by
      have hc : mgr0.cash_ratio = 3/100 := by
        norm_num [mgr0, EquilibriumPortfolioManager.cash_ratio,
          EquilibriumPortfolioManager.init, Params.empty]
      intro d hd
      simp only [List.mem_cons, List.not_mem_nil, or_false] at hd
      rcases hd with h | h
      · subst h
        constructor
        · intro p hp
          simp only [List.mem_cons, List.not_mem_nil, or_false] at hp
          subst hp
          norm_num
        · rw [hc]
          norm_num [sumValues]
      · subst h
        constructor
        · intro p hp
          simp only [List.mem_cons, List.not_mem_nil, or_false] at hp
          rcases hp with h2 | h2 <;> subst h2 <;> norm_num
        · rw [hc]
          norm_num [sumValues])
  refine ⟨h, ?_⟩
  exact h.2.2 [] [[("A", 0)]] [] [(1:ℚ)] [("A", 49/50)] 1 rfl (by simp)
    (by
      intro p hp
      simp only [List.mem_cons, List.not_mem_nil, or_false] at hp
      subst hp
      norm_num)
    (by norm_num [sumValues, mgr0, EquilibriumPortfolioManager.cash_ratio,
      EquilibriumPortfolioManager.init, Params.empty])
